import Mathlib

/-!
Shallow embedding of OpenObserve's versioned stream-schema catalog
(`src/service/db/schema.rs`): the watch-feed reconciliation handler for
`Put`/`Delete` events, the cold-start bulk loader `cache()`, and the
temporal version selector `filter_schema_version_id`.

Modelling choices:
* Arrow `Schema` values are embedded as an ordered field list plus a
  metadata record.  The source keeps metadata as a string-to-string map
  whose well-known keys are a serialized settings blob (parsed by
  `infra::schema::unwrap_stream_settings`, which lives outside `src/`)
  and the decimal string `"end_dt"`.  We embed those two keys pre-parsed
  (`settings : Option StreamSettings`, `end_dt : Option Int`, absence =
  `none`) and keep the remaining entries verbatim in `other`, so snapshot
  equality is still full fields-plus-metadata equality.
* The global `HashMap`/`DashMap` caches (`STREAM_SCHEMAS`,
  `STREAM_SCHEMAS_LATEST`, `STREAM_SETTINGS`, the mirrored atomic
  settings snapshot, `STREAM_RECORD_ID_GENERATOR`) are embedded as
  association lists with set-in-place/remove operations, bundled in
  `CatalogState`.
* Raw payload bytes are embedded by their JSON decode result
  (`Payload.good l` decodes to the schema list `l`, `Payload.bad` fails
  to decode); `json::from_slice` becomes `decodePayload`.
* Fallible steps return `Option`/`Except`; a Rust panic (`unwrap` on a
  bad value, failed `assert_eq!`, out-of-bounds index) is `none` /
  `.panicked`.
* `i64` timestamps are embedded as `Int` (no arithmetic is performed on
  them, so wrap-around cannot occur); `str::parse::<i64>` becomes
  `parseI64`, ignoring the overflow failure case.
-/

/-- Derived per-stream settings.  The real `StreamSettings` has many
fields; the watch/cache handlers under verification only inspect the two
original-data flags, so only those are embedded (the rest of the struct
does not influence any modelled branch). -/
structure StreamSettings where
  store_original_data : Bool
  index_original_data : Bool
deriving DecidableEq, Repr

/-- Schema metadata: the string-to-string map with its two well-known
keys pre-parsed (see the module docstring). -/
structure Metadata where
  settings : Option StreamSettings
  end_dt : Option Int
  other : List (String × String)
deriving DecidableEq, Repr

/-- An Arrow schema snapshot: ordered (field name, data type) pairs plus
metadata. -/
structure Schema where
  fields : List (String × String)
  metadata : Metadata
deriving DecidableEq, Repr

/-- Raw snapshot bytes, embedded by their decode result: `good l` are
bytes that deserialize to the schema list `l`, `bad` are malformed
bytes. -/
inductive Payload where
  | bad : Payload
  | good : List Schema → Payload
deriving DecidableEq, Repr

/-- `json::from_slice::<Vec<Schema>>` on a payload. -/
def decodePayload : Payload → Except Unit (List Schema)
  | .bad => .error ()
  | .good l => .ok l

/-- Modelled from the spec: `infra::schema::unwrap_stream_settings` (the
`infra` crate is not under `src/`) parses the settings blob out of the
snapshot's metadata; with the blob embedded pre-parsed this is just the
metadata's settings field. -/
def unwrap_stream_settings (s : Schema) : Option StreamSettings :=
  s.metadata.settings

/-- `StreamSettings::default()`: both original-data flags off. -/
def defaultStreamSettings : StreamSettings :=
  { store_original_data := false, index_original_data := false }

/-! ### String utilities (Rust `split('/')`, `join("/")`, `strip_prefix`,
`str::parse::<i64>`) over the character list of a `String`. -/

/-- Worker for splitting a character list at every occurrence of `c`
(Rust `str::split`): the accumulator holds the current segment
reversed. -/
def splitCharAux (c : Char) : List Char → List Char → List (List Char)
  | [], acc => [acc.reverse]
  | d :: ds, acc =>
    if d = c then acc.reverse :: splitCharAux c ds []
    else splitCharAux c ds (d :: acc)

/-- Rust `key.split('/').collect::<Vec<_>>()`. -/
def splitSlash (s : String) : List String :=
  (splitCharAux '/' s.data []).map String.mk

/-- Rust `Vec::join("/")`. -/
def joinSlash : List String → String
  | [] => ""
  | [x] => x
  | x :: xs => x ++ "/" ++ joinSlash xs

/-- Drop a literal character-list front from a character list, or `none`
if it does not start with it. -/
def dropFront : List Char → List Char → Option (List Char)
  | [], s => some s
  | _ :: _, [] => none
  | c :: cs, d :: ds => if c = d then dropFront cs ds else none

/-- Rust `key.strip_prefix("/schema/")` as used by the watch handler. -/
def stripSchemaKey (s : String) : Option String :=
  (dropFront "/schema/".data s.data).map String.mk

/-- Decimal digit run to a natural number; `none` on an empty or
non-digit run. -/
def parseNatChars : List Char → Option Nat
  | [] => none
  | l => l.foldl (fun acc c =>
      match acc with
      | none => none
      | some n => if c.isDigit then some (n * 10 + (c.toNat - 48)) else none)
      (some 0)

/-- Rust `str::parse::<i64>()` (optional sign, decimal digits); the
`i64` overflow failure case is not modelled. -/
def parseI64 (s : String) : Option Int :=
  match s.data with
  | '-' :: rest => (parseNatChars rest).map (fun n => -(n : Int))
  | '+' :: rest => (parseNatChars rest).map (fun n => (n : Int))
  | l => (parseNatChars l).map (fun n => (n : Int))

/-! ### Association-list maps (embedding of the global hash maps) -/

/-- Map lookup. -/
def alGet {α : Type} : List (String × α) → String → Option α
  | [], _ => none
  | (k', v) :: rest, k => if k' = k then some v else alGet rest k

/-- Map insert-or-replace (in place, preserving position of an existing
key). -/
def alSet {α : Type} : List (String × α) → String → α → List (String × α)
  | [], k, v => [(k, v)]
  | (k', v') :: rest, k, v =>
    if k' = k then (k, v) :: rest else (k', v') :: alSet rest k v

/-- Map key removal. -/
def alRemove {α : Type} : List (String × α) → String → List (String × α)
  | [], _ => []
  | (k', v') :: rest, k =>
    if k' = k then alRemove rest k else (k', v') :: alRemove rest k

theorem alGet_set_self {α : Type} (m : List (String × α)) (k : String) (v : α) :
    alGet (alSet m k v) k = some v := by
  induction m with
  | nil => simp [alSet, alGet]
  | cons p rest ih =>
    obtain ⟨k', v'⟩ := p
    by_cases h : k' = k <;> simp [alSet, alGet, h, ih]

theorem alGet_set_ne {α : Type} (m : List (String × α)) (k q : String) (v : α)
    (h : q ≠ k) : alGet (alSet m k v) q = alGet m q := by
  induction m with
  | nil => simp [alSet, alGet, Ne.symm h]
  | cons p rest ih =>
    obtain ⟨k', v'⟩ := p
    by_cases hk : k' = k
    · subst hk
      simp [alSet, alGet, Ne.symm h]
    · simp only [alSet, if_neg hk, alGet]
      by_cases hq : k' = q <;> simp [hq, ih]

theorem alGet_remove_self {α : Type} (m : List (String × α)) (k : String) :
    alGet (alRemove m k) k = none := by
  induction m with
  | nil => simp [alRemove, alGet]
  | cons p rest ih =>
    obtain ⟨k', v'⟩ := p
    by_cases h : k' = k <;> simp [alRemove, alGet, h, ih]

theorem alGet_remove_ne {α : Type} (m : List (String × α)) (k q : String)
    (h : q ≠ k) : alGet (alRemove m k) q = alGet m q := by
  induction m with
  | nil => simp [alRemove]
  | cons p rest ih =>
    obtain ⟨k', v'⟩ := p
    by_cases hk : k' = k
    · subst hk
      simp [alRemove, alGet, Ne.symm h, ih]
    · simp only [alRemove, if_neg hk, alGet]
      by_cases hq : k' = q <;> simp [hq, ih]

theorem alSet_set_same {α : Type} (m : List (String × α)) (k : String) (v : α) :
    alSet (alSet m k v) k v = alSet m k v := by
  induction m with
  | nil => simp [alSet]
  | cons p rest ih =>
    obtain ⟨k', v'⟩ := p
    by_cases h : k' = k <;> simp [alSet, h, ih]

/-! ### Temporal version selector (`filter_schema_version_id`) -/

/-- The `"end_dt"` metadata of a snapshot, absent treated as `"0"`
(source: `metadata.get("end_dt").unwrap_or(&"0".to_string())`). -/
def schemaEndDt (s : Schema) : Int :=
  s.metadata.end_dt.getD 0

/-- The ascending scan of `filter_schema_version_id`: index of the first
schema whose end_dt metadata is strictly greater than `end_dt`. -/
def findVersionIdx (end_dt : Int) : List Schema → Option Nat
  | [] => none
  | s :: rest =>
    if end_dt < schemaEndDt s then some 0
    else (findVersionIdx end_dt rest).map Nat.succ

/-- `filter_schema_version_id(schemas, _start_dt, end_dt)`
(src/service/db/schema.rs lines 617-635): first index whose end_dt
exceeds the query end, else the last index, else `None` when empty. -/
def filter_schema_version_id (schemas : List Schema) (_start_dt end_dt : Int) :
    Option Nat :=
  match findVersionIdx end_dt schemas with
  | some i => some i
  | none => if schemas.length > 0 then some (schemas.length - 1) else none

/-! ### Catalog cache state and the watch-feed handlers -/

/-- The in-process catalog caches, bundled: `STREAM_SCHEMAS` (per-key
version history, `Vec<(i64, Schema)>`), `STREAM_SCHEMAS_LATEST`
(`SchemaCache` embedded as the wrapped schema), `STREAM_SETTINGS`, the
process-wide mirrored settings snapshot written by
`infra::schema::set_stream_settings_atomic`, and
`STREAM_RECORD_ID_GENERATOR` (a `SnowflakeIdGenerator` embedded as the
node id it was seeded from). -/
structure CatalogState where
  stream_schemas : List (String × List (Int × Schema))
  stream_schemas_latest : List (String × Schema)
  stream_settings : List (String × StreamSettings)
  stream_settings_atomic : List (String × StreamSettings)
  stream_record_id_generator : List (String × Int)
deriving DecidableEq, Repr

/-- Process start: all caches empty. -/
def emptyState : CatalogState := ⟨[], [], [], [], []⟩

/-- Put-event key decode (watch handler, lines 302-310): with more than
five `/`-segments the event key's sixth segment is the start_dt
(`unwrap_or(0)` on parse failure) and the key is truncated to five
segments; otherwise the event's own `start_dt` field is used
(`unwrap_or_default`). -/
def putDecodeKey (evKey : String) (evStartDt : Option Int) : String × Int :=
  let key_columns := splitSlash evKey
  if key_columns.length > 5 then
    (joinSlash (key_columns.take 5), (parseI64 (key_columns.getD 5 "")).getD 0)
  else
    (evKey, evStartDt.getD 0)

/-- Previous "second-to-last" start_dt cached for a key (watch handler,
lines 313-324): `0` for an unseen key; otherwise the start_dt at index
`len-2` when at least two entries are cached, else at index `0`.
`none` embeds the index panic on a present-but-empty vector. -/
def prevStartDt (m : List (String × List (Int × Schema))) (k : String) :
    Option Int :=
  match alGet m k with
  | some schemas =>
    let idx := if schemas.length ≥ 2 then schemas.length - 2 else 0
    (schemas.get? idx).map Prod.fst
  | none => some 0

/-- Re-fetch time range for a Put event (watch handler, lines 325-331). -/
def tsRange (ev_start_dt prev_start_dt now : Int) : Option (Int × Int) :=
  if ev_start_dt = 0 ∧ prev_start_dt = 0 then none
  else if ev_start_dt = 0 ∨ (prev_start_dt > 0 ∧ ev_start_dt > prev_start_dt) then
    some (prev_start_dt, now)
  else
    some (ev_start_dt, now)

/-- `STREAM_RECORD_ID_GENERATOR.entry(key)` vacant-entry insert of a
`SnowflakeIdGenerator::new(LOCAL_NODE_ID)` (insert only if absent). -/
def ridInsertIfAbsent (g : List (String × Int)) (k : String) (nodeId : Int) :
    List (String × Int) :=
  match alGet g k with
  | some _ => g
  | none => alSet g k nodeId

/-- Decode a run of non-latest fetched versions (watch handler, lines
381-390): each payload goes through
`json::from_slice::<Vec<Schema>>(..).unwrap().pop().unwrap()`, so a
malformed payload or an empty decoded list panics (`none`). -/
def decodeVersions : List (Int × Payload) → Option (List (Int × Schema))
  | [] => some []
  | (dt, p) :: rest =>
    match decodePayload p with
    | .error _ => none
    | .ok l =>
      match l.getLast? with
      | none => none
      | some s => (decodeVersions rest).map (fun r => (dt, s) :: r)

/-- The `STREAM_SCHEMAS.entry(key).and_modify(..).or_insert(..)` merge
(watch handler, lines 395-401): retain the existing entries whose
start_dt differs from every new entry's start_dt, then append all new
entries; an unseen key just gets the new entries. -/
def mergeVersions (m : List (String × List (Int × Schema))) (k : String)
    (newv : List (Int × Schema)) : List (String × List (Int × Schema)) :=
  match alGet m k with
  | some existing =>
    alSet m k ((existing.filter fun p => newv.all fun q => q.1 ≠ p.1) ++ newv)
  | none => alSet m k newv

/-- `unwrap_stream_settings(&latest_schema).unwrap_or_default()`. -/
def putSettings (latest_schema : Schema) : StreamSettings :=
  (unwrap_stream_settings latest_schema).getD defaultStreamSettings

/-- The lazy record-id generator creation applied by both the Put
handler and the bulk loader: insert-if-absent when the derived settings
request original-document storage or indexing, otherwise untouched. -/
def ridStep (nodeId : Int) (g : List (String × Int)) (item_key : String)
    (latest_schema : Schema) : List (String × Int) :=
  if (putSettings latest_schema).store_original_data
      || (putSettings latest_schema).index_original_data then
    ridInsertIfAbsent g item_key nodeId
  else g

/-- The publication step of a successful Put (watch handler, lines
361-402): lazily create the record-id generator, publish settings (and
the mirrored process-wide snapshot) and the latest schema, and merge
the decoded non-latest versions plus the latest into the version
history. -/
def putPublish (nodeId : Int) (st : CatalogState) (item_key : String)
    (latest_start_dt : Int) (latest_schema : Schema)
    (others : List (Int × Schema)) : CatalogState :=
  { stream_schemas :=
      mergeVersions st.stream_schemas item_key
        (others ++ [(latest_start_dt, latest_schema)]),
    stream_schemas_latest :=
      alSet st.stream_schemas_latest item_key latest_schema,
    stream_settings :=
      alSet st.stream_settings item_key (putSettings latest_schema),
    stream_settings_atomic :=
      alSet st.stream_settings item_key (putSettings latest_schema),
    stream_record_id_generator :=
      ridStep nodeId st.stream_record_id_generator item_key latest_schema }

/-- Core of the Put handler after the backing-store fetch (watch
handler, lines 341-402): skip on an empty fetch, a malformed latest
payload, or an empty decoded latest list (state unchanged); a decode
failure on a non-latest version panics (`none`); otherwise publish via
`putPublish`. -/
def putApplyCore (nodeId : Int) (st : CatalogState) (item_key : String)
    (schema_versions : List (Int × Payload)) : Option CatalogState :=
  match schema_versions.getLast? with
  | none => some st
  | some (latest_start_dt, latest_payload) =>
    match decodePayload latest_payload with
    | .error _ => some st
    | .ok latest_list =>
      match latest_list.getLast? with
      | none => some st
      | some latest_schema =>
        match decodeVersions schema_versions.dropLast with
        | none => none
        | some others =>
          some (putPublish nodeId st item_key latest_start_dt latest_schema
            others)

/-- The Put branch of the watch handler (lines 301-402).  `store` is the
backing store's `list_values_by_start_dt(prefix, range)`; its `.error`
answer is logged and the event skipped, its `.ok` list is handed to
`putApplyCore`.  `none` embeds an engine panic (missing `/schema/`
prefix, indexing a cached empty vector, or a non-latest decode
failure). -/
def applyPut (nodeId : Int) (st : CatalogState) (evKey : String)
    (evStartDt : Option Int) (now : Int)
    (store : String → Option (Int × Int) → Except Unit (List (Int × Payload))) :
    Option CatalogState :=
  match stripSchemaKey (putDecodeKey evKey evStartDt).1 with
  | none => none
  | some item_key =>
    match prevStartDt st.stream_schemas item_key with
    | none => none
    | some prev_start_dt =>
      match store ((putDecodeKey evKey evStartDt).1 ++ "/")
          (tsRange (putDecodeKey evKey evStartDt).2 prev_start_dt now) with
      | .error _ => some st
      | .ok schema_versions => putApplyCore nodeId st item_key schema_versions

/-- The start_dt a Delete event's key carries: its fourth `/`-segment,
parsed with `unwrap_or_default` (so an unparsable segment becomes 0),
or 0 when the segment is absent (watch handler, lines 423-426). -/
def deleteStartDt (item_key : String) : Int :=
  match (splitSlash item_key).get? 3 with
  | some s => (parseI64 s).getD 0
  | none => 0

/-- The Delete branch of the watch handler (lines 417-447): decode the
key (fewer than three segments panics on `columns[2]`); a start_dt > 0
is a single-version delete and a no-op on cache state; otherwise the
full item key is removed from all four caches and the mirrored settings
snapshot is republished.  The external best-effort cleanups (stats,
compaction offsets, enrichment files) touch no modelled state. -/
def applyDelete (st : CatalogState) (evKey : String) : Option CatalogState :=
  match stripSchemaKey evKey with
  | none => none
  | some item_key =>
    if (splitSlash item_key).length < 3 then none
    else if deleteStartDt item_key > 0 then some st
    else
      let settingsMap := alRemove st.stream_settings item_key
      some { stream_schemas := alRemove st.stream_schemas item_key,
             stream_schemas_latest := alRemove st.stream_schemas_latest item_key,
             stream_settings := settingsMap,
             stream_settings_atomic := settingsMap,
             stream_record_id_generator :=
               alRemove st.stream_record_id_generator item_key }

/-! ### Bulk loader (`cache()`) -/

/-- Outcome of a bulk-load step: `ok` continues the key loop, `err` is
the early `?` return out of `cache()` (carrying the state loaded so
far), `panicked` is a process panic (failed `assert_eq!`, `unwrap`). -/
inductive LoadOutcome where
  | ok : CatalogState → LoadOutcome
  | err : CatalogState → LoadOutcome
  | panicked : LoadOutcome
deriving DecidableEq, Repr

/-- Stable insertion of one raw version into an ascending-by-start_dt
list (insert before the first strictly larger start_dt). -/
def insVersion (x : Int × Payload) : List (Int × Payload) → List (Int × Payload)
  | [] => [x]
  | y :: ys => if x.1 ≤ y.1 then x :: y :: ys else y :: insVersion x ys

/-- `schema_versions.sort_by(|a, b| a.0.cmp(&b.0))` (stable, ascending
by start_dt). -/
def sortByStartDt (l : List (Int × Payload)) : List (Int × Payload) :=
  l.foldr insVersion []

/-- Group raw `/schema/` listing items per stream key (`cache()`, lines
487-498): strip the `/schema/` prefix, take the first four segments
(`assert_eq!(columns.len(), 4)` panics on fewer, embedded as `none`),
re-join the first three as the item key, parse the fourth as start_dt
(`parse().unwrap()` panics on failure), and append to the key's bucket
in first-occurrence key order (the Rust `HashMap` iteration order is
unspecified; any fixed order stands for it, and no settled claim
depends on the order). -/
def cacheGroups : List (String × Payload) →
    Option (List (String × List (Int × Payload)))
  | [] => some []
  | (key, val) :: rest =>
    match stripSchemaKey key with
    | none => none
    | some stripped =>
      let columns := (splitSlash stripped).take 4
      if columns.length ≠ 4 then none
      else
        match parseI64 (columns.getD 3 "") with
        | none => none
        | some start_dt =>
          let item_key := joinSlash (columns.take 3)
          match cacheGroups rest with
          | none => none
          | some gs =>
            match alGet gs item_key with
            | some bucket => some (alSet gs item_key ((start_dt, val) :: bucket))
            | none => some (alSet gs item_key [(start_dt, val)])

/-- The publication step for one bulk-loaded key: identical to the Put
handler's publication except that the version history is installed
wholesale (`insert`) rather than merged. -/
def loadPublish (nodeId : Int) (st : CatalogState) (item_key : String)
    (latest_schema : Schema) (decoded : List (Int × Schema)) : CatalogState :=
  { stream_schemas := alSet st.stream_schemas item_key decoded,
    stream_schemas_latest :=
      alSet st.stream_schemas_latest item_key latest_schema,
    stream_settings :=
      alSet st.stream_settings item_key (putSettings latest_schema),
    stream_settings_atomic :=
      alSet st.stream_settings item_key (putSettings latest_schema),
    stream_record_id_generator :=
      ridStep nodeId st.stream_record_id_generator item_key latest_schema }

/-- Load one grouped key during bulk load (`cache()`, lines 503-549):
skip empty buckets, sort ascending by start_dt, decode the latest
payload (a decode error is the early `?` return out of `cache()`), skip
keys whose decoded latest list is empty, otherwise publish via
`loadPublish` with the full decoded version list
(`unwrap().pop().unwrap()` per version panics on a bad non-latest
payload). -/
def loadKey (nodeId : Int) (st : CatalogState) (item_key : String)
    (versions : List (Int × Payload)) : LoadOutcome :=
  if versions.isEmpty then .ok st
  else
    match (sortByStartDt versions).getLast? with
    | none => .ok st
    | some (_, latest_payload) =>
      match decodePayload latest_payload with
      | .error _ => .err st
      | .ok latest_list =>
        match latest_list.getLast? with
        | none => .ok st
        | some latest_schema =>
          match decodeVersions (sortByStartDt versions) with
          | none => .panicked
          | some decoded =>
            .ok (loadPublish nodeId st item_key latest_schema decoded)

/-- The key loop of `cache()`: load each grouped key in turn, stopping
on the first early error or panic. -/
def cacheLoadGroups (nodeId : Int) (st : CatalogState) :
    List (String × List (Int × Payload)) → LoadOutcome
  | [] => .ok st
  | (k, vs) :: rest =>
    match loadKey nodeId st k vs with
    | .ok st' => cacheLoadGroups nodeId st' rest
    | .err st' => .err st'
    | .panicked => .panicked

/-- The bulk loader `cache()` (lines 480-556) on the raw `/schema/`
listing: group the items per key, then run the key loop. -/
def cacheLoad (nodeId : Int) (st : CatalogState)
    (items : List (String × Payload)) : LoadOutcome :=
  match cacheGroups items with
  | none => .panicked
  | some gs => cacheLoadGroups nodeId st gs

/-! ### Reachable catalog states and history-order helpers -/

/-- The entry with maximum start_dt of a version history (ties resolved
towards the later entry). -/
def maxStartDtEntry : List (Int × Schema) → Option (Int × Schema)
  | [] => none
  | x :: xs => some (xs.foldl (fun a b => if a.1 ≤ b.1 then b else a) x)

/-- A version history is in ascending start_dt order. -/
def ascStartDt : List (Int × Schema) → Bool
  | [] => true
  | [_] => true
  | a :: b :: rest => decide (a.1 ≤ b.1) && ascStartDt (b :: rest)

/-- Catalog states reachable from process start: the empty state,
extended by successfully applied Put events, successfully applied
Delete events, and bulk loads (complete, or cut short by the early
decode-error return). -/
inductive Reach (nodeId : Int) : CatalogState → Prop
  | init : Reach nodeId emptyState
  | put (st st' : CatalogState) (evKey : String) (evStartDt : Option Int)
      (now : Int)
      (store : String → Option (Int × Int) → Except Unit (List (Int × Payload)))
      (hr : Reach nodeId st)
      (hs : applyPut nodeId st evKey evStartDt now store = some st') :
      Reach nodeId st'
  | del (st st' : CatalogState) (evKey : String)
      (hr : Reach nodeId st) (hs : applyDelete st evKey = some st') :
      Reach nodeId st'
  | bulk (st st' : CatalogState) (items : List (String × Payload))
      (hr : Reach nodeId st) (hs : cacheLoad nodeId st items = .ok st') :
      Reach nodeId st'
  | bulkErr (st st' : CatalogState) (items : List (String × Payload))
      (hr : Reach nodeId st) (hs : cacheLoad nodeId st items = .err st') :
      Reach nodeId st'

/-! ### Concrete snapshots used by witnesses and counterexamples -/

/-- Concrete snapshot with a single field `a`. -/
def sA : Schema := ⟨[("a", "Utf8")], ⟨none, none, []⟩⟩

/-- Concrete snapshot with a single field `b`. -/
def sB : Schema := ⟨[("b", "Utf8")], ⟨none, none, []⟩⟩

/-- Concrete snapshot with a single field `c`. -/
def sC : Schema := ⟨[("c", "Utf8")], ⟨none, none, []⟩⟩

/-- Concrete snapshot whose end_dt metadata is 5. -/
def sEnd5 : Schema := ⟨[], ⟨none, some 5, []⟩⟩

/-- Concrete snapshot whose end_dt metadata is 9. -/
def sEnd9 : Schema := ⟨[], ⟨none, some 9, []⟩⟩

/-- Concrete snapshot whose settings request original-document storage. -/
def sFlag : Schema := ⟨[("f", "Utf8")], ⟨some ⟨true, false⟩, none, []⟩⟩

/-! ### C2: temporal version selection -/

/-- Index `j` holds a version whose end_dt metadata is strictly greater
than the queried `end_dt`. -/
def hitsAt (schemas : List Schema) (end_dt : Int) (j : Nat) : Prop :=
  ∃ s, schemas.get? j = some s ∧ end_dt < schemaEndDt s

theorem findVersionIdx_none (ed : Int) (l : List Schema)
    (h : findVersionIdx ed l = none) : ∀ j, ¬ hitsAt l ed j := by
  induction l with
  | nil =>
    intro j hj
    obtain ⟨s, hs, _⟩ := hj
    simp at hs
  | cons a rest ih =>
    intro j hj
    by_cases ha : ed < schemaEndDt a
    · simp [findVersionIdx, ha] at h
    · simp only [findVersionIdx, if_neg ha] at h
      cases hfr : findVersionIdx ed rest with
      | some i => rw [hfr] at h; simp at h
      | none =>
        obtain ⟨s, hs, hlt⟩ := hj
        cases j with
        | zero =>
          simp only [List.get?] at hs
          injection hs with hs
          exact ha (hs ▸ hlt)
        | succ j =>
          exact ih hfr j ⟨s, by simpa using hs, hlt⟩

theorem findVersionIdx_some (ed : Int) (l : List Schema) (i : Nat)
    (h : findVersionIdx ed l = some i) :
    hitsAt l ed i ∧ ∀ j, j < i → ¬ hitsAt l ed j := by
  induction l generalizing i with
  | nil => simp [findVersionIdx] at h
  | cons a rest ih =>
    by_cases ha : ed < schemaEndDt a
    · simp only [findVersionIdx, if_pos ha] at h
      injection h with h
      subst h
      exact ⟨⟨a, rfl, ha⟩, fun j hj => absurd hj (Nat.not_lt_zero j)⟩
    · simp only [findVersionIdx, if_neg ha] at h
      cases hfr : findVersionIdx ed rest with
      | none => rw [hfr] at h; simp at h
      | some i' =>
        rw [hfr] at h
        simp only [Option.map_some'] at h
        injection h with h
        subst h
        obtain ⟨⟨s, hs, hlt⟩, hmin⟩ := ih i' hfr
        refine ⟨⟨s, by simpa using hs, hlt⟩, ?_⟩
        intro j hj hhj
        cases j with
        | zero =>
          obtain ⟨s', hs', hlt'⟩ := hhj
          simp only [List.get?] at hs'
          injection hs' with hs'
          exact ha (hs' ▸ hlt')
        | succ j =>
          obtain ⟨s', hs', hlt'⟩ := hhj
          exact hmin j (Nat.lt_of_succ_lt_succ hj) ⟨s', by simpa using hs', hlt'⟩

/-- C2: for every list of schemas and every query end_dt,
`filter_schema_version_id` returns `none` exactly on the empty list, and
any returned index is either the smallest index whose end_dt metadata
(absent treated as 0) strictly exceeds the query end_dt, or — when no
index qualifies — the last index of the (non-empty) list. -/
theorem c2_filter_schema_version_id_correct (schemas : List Schema)
    (sd ed : Int) :
    (filter_schema_version_id schemas sd ed = none ↔ schemas = []) ∧
    ∀ i, filter_schema_version_id schemas sd ed = some i →
      (hitsAt schemas ed i ∧ ∀ j, j < i → ¬ hitsAt schemas ed j) ∨
      ((∀ j, ¬ hitsAt schemas ed j) ∧ schemas ≠ [] ∧ i = schemas.length - 1) := by
  constructor
  · constructor
    · intro h
      unfold filter_schema_version_id at h
      cases hf : findVersionIdx ed schemas with
      | some i => rw [hf] at h; simp at h
      | none =>
        rw [hf] at h
        by_cases hl : schemas.length > 0
        · simp [hl] at h
        · cases schemas with
          | nil => rfl
          | cons a r => simp at hl
    · intro h
      subst h
      rfl
  · intro i h
    unfold filter_schema_version_id at h
    cases hf : findVersionIdx ed schemas with
    | some i' =>
      rw [hf] at h
      injection h with h
      subst h
      exact Or.inl (findVersionIdx_some ed schemas i' hf)
    | none =>
      rw [hf] at h
      by_cases hl : schemas.length > 0
      · rw [if_pos hl] at h
        injection h with h
        refine Or.inr ⟨findVersionIdx_none ed schemas hf, ?_, h.symm⟩
        intro hnil
        subst hnil
        simp at hl
      · rw [if_neg hl] at h
        exact absurd h (by simp)

/-- Witness for C2: on two versions with end_dt metadata 5 and 9 and a
query end_dt of 7, the selector returns index 1, the smallest index
whose end_dt exceeds 7. -/
theorem c2_witness :
    filter_schema_version_id [sEnd5, sEnd9] 0 7 = some 1 ∧
    (hitsAt [sEnd5, sEnd9] 7 1 ∧ ∀ j, j < 1 → ¬ hitsAt [sEnd5, sEnd9] 7 j) ∨
    ((∀ j, ¬ hitsAt [sEnd5, sEnd9] 7 j) ∧ [sEnd5, sEnd9] ≠ [] ∧
      1 = [sEnd5, sEnd9].length - 1) := by
  have h := (c2_filter_schema_version_id_correct [sEnd5, sEnd9] 0 7).2 1 (by decide)
  exact Or.imp (fun hh => ⟨by decide, hh.1, hh.2⟩) id
    (h.imp (fun hh => hh) (fun hh => hh))

/-! ### C3: Put re-fetch range -/

/-- C3: the re-fetch range is absent exactly when both the event
start_dt and the previous start_dt are 0; it is `[previous, now]` when
the event start_dt is 0 or when previous > 0 and the event start_dt
exceeds it; and `[event, now]` otherwise. -/
theorem c3_ts_range_cases (ev prev now : Int) :
    (tsRange ev prev now = none ↔ (ev = 0 ∧ prev = 0)) ∧
    (¬(ev = 0 ∧ prev = 0) → (ev = 0 ∨ (prev > 0 ∧ ev > prev)) →
      tsRange ev prev now = some (prev, now)) ∧
    (¬(ev = 0 ∧ prev = 0) → ¬(ev = 0 ∨ (prev > 0 ∧ ev > prev)) →
      tsRange ev prev now = some (ev, now)) := by
  refine ⟨⟨?_, ?_⟩, ?_, ?_⟩
  · intro h
    unfold tsRange at h
    split_ifs at h with h1 h2
    exact h1
  · intro h
    simp [tsRange, h]
  · intro h1 h2
    simp [tsRange, h1, h2]
  · intro h1 h2
    simp [tsRange, h1, h2]

/-- Witness for C3: event start_dt 0 with previous 5 re-fetches from the
previous start_dt through now. -/
theorem c3_witness : tsRange 0 5 99 = some (5, 99) :=
  (c3_ts_range_cases 0 5 99).2.1 (by decide) (by decide)

/-! ### C4: previous second-to-last start_dt -/

/-- Counterexample to C4 as stated: with exactly one cached version of
start_dt 100, the watch handler's previous start_dt is 100, not 0. -/
theorem c4_counterexample :
    prevStartDt [("acme/logs/app", [((100 : Int), sA)])] "acme/logs/app"
      = some 100 ∧ (100 : Int) ≠ 0 := by
  decide

/-- C4 amended: the previous start_dt is 0 only for an unseen key; with
at least two cached versions it is the start_dt at index `len - 2`; with
exactly one cached version it is that version's own start_dt; and a
cached empty vector panics the handler. -/
theorem c4_prev_start_dt_amended (m : List (String × List (Int × Schema)))
    (k : String) :
    (alGet m k = none → prevStartDt m k = some 0) ∧
    (∀ l, alGet m k = some l → 2 ≤ l.length →
      prevStartDt m k = (l.get? (l.length - 2)).map Prod.fst) ∧
    (∀ x, alGet m k = some [x] → prevStartDt m k = some x.1) ∧
    (alGet m k = some [] → prevStartDt m k = none) := by
  refine ⟨?_, ?_, ?_, ?_⟩
  · intro h
    simp [prevStartDt, h]
  · intro l h hl
    simp [prevStartDt, h, ge_iff_le, hl]
  · intro x h
    simp [prevStartDt, h]
  · intro h
    simp [prevStartDt, h]

/-- Witness for C4: with three cached versions the previous start_dt is
the second-to-last one. -/
theorem c4_witness :
    prevStartDt [("k", [((1 : Int), sA), (2, sB), (3, sC)])] "k" = some 2 := by
  have h := (c4_prev_start_dt_amended
    [("k", [((1 : Int), sA), (2, sB), (3, sC)])] "k").2.1
    [((1 : Int), sA), (2, sB), (3, sC)] (by decide) (by decide)
  simpa using h

/-! ### C5: version-history merge -/

instance : IsTrans (Int × Schema) (fun a b => a.1 ≤ b.1) :=
  ⟨fun _ _ _ h1 h2 => le_trans h1 h2⟩

theorem ascStartDt_iff_chain (l : List (Int × Schema)) :
    ascStartDt l = true ↔ List.Chain' (fun a b => a.1 ≤ b.1) l := by
  induction l with
  | nil => simp [ascStartDt]
  | cons a rest ih =>
    cases rest with
    | nil => simp [ascStartDt]
    | cons b r =>
      rw [show ascStartDt (a :: b :: r)
          = (decide (a.1 ≤ b.1) && ascStartDt (b :: r)) from rfl]
      rw [List.chain'_cons, Bool.and_eq_true, decide_eq_true_iff]
      exact and_congr Iff.rfl ih

theorem ascStartDt_iff_pairwise (l : List (Int × Schema)) :
    ascStartDt l = true ↔ l.Pairwise (fun a b => a.1 ≤ b.1) :=
  (ascStartDt_iff_chain l).trans List.chain'_iff_pairwise

theorem ascStartDt_filter (l : List (Int × Schema))
    (f : Int × Schema → Bool) (h : ascStartDt l = true) :
    ascStartDt (l.filter f) = true :=
  (ascStartDt_iff_pairwise _).mpr
    (List.Pairwise.sublist (List.filter_sublist l)
      ((ascStartDt_iff_pairwise l).mp h))

theorem ascStartDt_append (l1 l2 : List (Int × Schema))
    (h1 : ascStartDt l1 = true) (h2 : ascStartDt l2 = true)
    (h3 : ∀ p ∈ l1, ∀ q ∈ l2, p.1 ≤ q.1) :
    ascStartDt (l1 ++ l2) = true :=
  (ascStartDt_iff_pairwise _).mpr
    (List.pairwise_append.mpr ⟨(ascStartDt_iff_pairwise l1).mp h1,
      (ascStartDt_iff_pairwise l2).mp h2, h3⟩)

/-- Counterexample to C5 as stated: the merge dedupes by start_dt, not
by snapshot value.  With prior history `[(100, sA)]` and new batch
`[(100, sB)]` (distinct snapshots), the code drops the prior entry and
yields `[(100, sB)]`, while the claim's snapshot-value dedup predicts
`[(100, sA), (100, sB)]`.  Also, the combined result need not be in
ascending start_dt order: merging `[(150, sC)]` into
`[(100, sA), (200, sB)]` yields a non-ascending history. -/
theorem c5_counterexample :
    alGet (mergeVersions [("k", [((100 : Int), sA)])] "k" [((100 : Int), sB)])
        "k" = some [((100 : Int), sB)] ∧
    ([((100 : Int), sA)].filter
        (fun p => [((100 : Int), sB)].all fun q => q.2 ≠ p.2))
        ++ [((100 : Int), sB)] = [((100 : Int), sA), ((100 : Int), sB)] ∧
    some [((100 : Int), sB)] ≠ some [((100 : Int), sA), ((100 : Int), sB)] ∧
    alGet (mergeVersions [("k", [((100 : Int), sA), (200, sB)])] "k"
        [((150 : Int), sC)]) "k"
      = some [((100 : Int), sA), (200, sB), (150, sC)] ∧
    ascStartDt [((100 : Int), sA), (200, sB), (150, sC)] = false := by
  decide

/-- C5 amended: the merged history equals the prior history minus every
entry whose start_dt equals the start_dt of one of the new entries,
followed by all the new entries in fetch order; the combined result is
in ascending start_dt order whenever the prior history and the new
batch are each ascending and every retained prior start_dt is at most
every new start_dt. -/
theorem c5_merge_versions_amended (m : List (String × List (Int × Schema)))
    (k : String) (newv : List (Int × Schema)) :
    alGet (mergeVersions m k newv) k =
      some ((((alGet m k).getD []).filter
        fun p => newv.all fun q => q.1 ≠ p.1) ++ newv) ∧
    (∀ l, alGet m k = some l → ascStartDt l = true → ascStartDt newv = true →
      (∀ p ∈ l.filter (fun p => newv.all fun q => q.1 ≠ p.1),
        ∀ q ∈ newv, p.1 ≤ q.1) →
      ascStartDt ((l.filter fun p => newv.all fun q => q.1 ≠ p.1) ++ newv)
        = true) := by
  constructor
  · unfold mergeVersions
    cases h : alGet m k with
    | some ex => simp [h, alGet_set_self]
    | none => simp [h, alGet_set_self]
  · intro l _ h1 h2 h3
    exact ascStartDt_append _ _ (ascStartDt_filter l _ h1) h2 h3

/-- Witness for C5: merging an ascending new batch `[(200, sC), (300, sA)]`
into the prior `[(100, sA), (200, sB)]` keeps only the prior entry with
start_dt 100 and the result is ascending. -/
theorem c5_witness :
    alGet (mergeVersions [("k", [((100 : Int), sA), (200, sB)])] "k"
        [((200 : Int), sC), (300, sA)]) "k" =
      some ((([((100 : Int), sA), (200, sB)]).filter
        (fun p => ([((200 : Int), sC), (300, sA)]).all fun q => q.1 ≠ p.1))
        ++ [((200 : Int), sC), (300, sA)]) ∧
    ascStartDt ((([((100 : Int), sA), (200, sB)]).filter
        (fun p => ([((200 : Int), sC), (300, sA)]).all fun q => q.1 ≠ p.1))
        ++ [((200 : Int), sC), (300, sA)]) = true := by
  have h := c5_merge_versions_amended [("k", [((100 : Int), sA), (200, sB)])]
    "k" [((200 : Int), sC), (300, sA)]
  exact ⟨by simpa using h.1,
    h.2 [((100 : Int), sA), (200, sB)] (by decide) (by decide) (by decide)
      (by decide)⟩

/-! ### C7 and C10: Delete events -/

/-- C7: a Delete event whose decoded key carries a start_dt > 0 changes
no local cache state; otherwise the full decoded key is removed from
the version-history, latest-schema, settings and record-id-generator
maps, the mirrored settings snapshot is republished from the updated
settings map, and all four lookups for that key are absent
afterwards. -/
theorem c7_delete_event_effects (st : CatalogState) (evKey item_key : String)
    (h1 : stripSchemaKey evKey = some item_key)
    (h2 : ¬ (splitSlash item_key).length < 3) :
    (deleteStartDt item_key > 0 → applyDelete st evKey = some st) ∧
    (¬ deleteStartDt item_key > 0 →
      applyDelete st evKey = some
        { stream_schemas := alRemove st.stream_schemas item_key,
          stream_schemas_latest := alRemove st.stream_schemas_latest item_key,
          stream_settings := alRemove st.stream_settings item_key,
          stream_settings_atomic := alRemove st.stream_settings item_key,
          stream_record_id_generator :=
            alRemove st.stream_record_id_generator item_key } ∧
      alGet (alRemove st.stream_schemas item_key) item_key = none ∧
      alGet (alRemove st.stream_schemas_latest item_key) item_key = none ∧
      alGet (alRemove st.stream_settings item_key) item_key = none ∧
      alGet (alRemove st.stream_record_id_generator item_key) item_key
        = none) := by
  constructor
  · intro hdt
    simp [applyDelete, h1, h2, hdt]
  · intro hdt
    refine ⟨?_, alGet_remove_self _ _, alGet_remove_self _ _,
      alGet_remove_self _ _, alGet_remove_self _ _⟩
    simp [applyDelete, h1, h2, hdt]

/-- Concrete one-stream catalog state used by the C7 witness. -/
def c7St : CatalogState :=
  ⟨[("acme/logs/app", [((100 : Int), sA)])], [("acme/logs/app", sA)],
    [("acme/logs/app", defaultStreamSettings)],
    [("acme/logs/app", defaultStreamSettings)], [("acme/logs/app", (7 : Int))]⟩

/-- Witness for C7: a start_dt-qualified Delete (`.../50`) leaves the
state untouched; a full-stream Delete empties all four maps for the
key. -/
theorem c7_witness :
    applyDelete c7St "/schema/acme/logs/app/50" = some c7St ∧
    applyDelete c7St "/schema/acme/logs/app" = some
      { stream_schemas := alRemove c7St.stream_schemas "acme/logs/app",
        stream_schemas_latest :=
          alRemove c7St.stream_schemas_latest "acme/logs/app",
        stream_settings := alRemove c7St.stream_settings "acme/logs/app",
        stream_settings_atomic := alRemove c7St.stream_settings "acme/logs/app",
        stream_record_id_generator :=
          alRemove c7St.stream_record_id_generator "acme/logs/app" } :=
  ⟨(c7_delete_event_effects c7St "/schema/acme/logs/app/50" "acme/logs/app/50"
      (by decide) (by decide)).1 (by decide),
    ((c7_delete_event_effects c7St "/schema/acme/logs/app" "acme/logs/app"
      (by decide) (by decide)).2 (by decide)).1⟩

/-- C10: a Delete event whose fourth key segment does not parse as an
integer (here `abc`) is treated as start_dt 0 and takes the full-stream
delete branch — the decoded key is removed from all four cache maps
(rather than the single-version no-op branch) — so all four lookups for
that key are absent afterwards. -/
theorem c10_unparsable_start_dt_full_delete (st : CatalogState) :
    deleteStartDt "org/logs/app/abc" = 0 ∧
    applyDelete st "/schema/org/logs/app/abc" = some
      { stream_schemas := alRemove st.stream_schemas "org/logs/app/abc",
        stream_schemas_latest :=
          alRemove st.stream_schemas_latest "org/logs/app/abc",
        stream_settings := alRemove st.stream_settings "org/logs/app/abc",
        stream_settings_atomic :=
          alRemove st.stream_settings "org/logs/app/abc",
        stream_record_id_generator :=
          alRemove st.stream_record_id_generator "org/logs/app/abc" } ∧
    alGet (alRemove st.stream_schemas "org/logs/app/abc") "org/logs/app/abc"
      = none ∧
    alGet (alRemove st.stream_schemas_latest "org/logs/app/abc")
      "org/logs/app/abc" = none ∧
    alGet (alRemove st.stream_settings "org/logs/app/abc") "org/logs/app/abc"
      = none ∧
    alGet (alRemove st.stream_record_id_generator "org/logs/app/abc")
      "org/logs/app/abc" = none := by
  refine ⟨by decide, ?_, alGet_remove_self _ _, alGet_remove_self _ _,
    alGet_remove_self _ _, alGet_remove_self _ _⟩
  have h1 : stripSchemaKey "/schema/org/logs/app/abc" = some "org/logs/app/abc" := by
    decide
  have h2 : ¬ (splitSlash "org/logs/app/abc").length < 3 := by decide
  have h3 : ¬ deleteStartDt "org/logs/app/abc" > 0 := by decide
  simp [applyDelete, h1, h2, h3]


/-! ### Case characterizations of the handlers -/

theorem putApplyCore_cases (nodeId : Int) (st : CatalogState) (item_key : String)
    (vs : List (Int × Payload)) :
    putApplyCore nodeId st item_key vs = some st ∨
    putApplyCore nodeId st item_key vs = none ∨
    ∃ lst lsch others, putApplyCore nodeId st item_key vs
      = some (putPublish nodeId st item_key lst lsch others) := by
  unfold putApplyCore
  split
  · exact Or.inl rfl
  · split
    · exact Or.inl rfl
    · split
      · exact Or.inl rfl
      · split
        · exact Or.inr (Or.inl rfl)
        · exact Or.inr (Or.inr ⟨_, _, _, rfl⟩)

theorem applyPut_cases (nodeId : Int) (st : CatalogState) (evKey : String)
    (evStartDt : Option Int) (now : Int)
    (store : String → Option (Int × Int) → Except Unit (List (Int × Payload))) :
    applyPut nodeId st evKey evStartDt now store = none ∨
    applyPut nodeId st evKey evStartDt now store = some st ∨
    ∃ item_key vs, applyPut nodeId st evKey evStartDt now store
      = putApplyCore nodeId st item_key vs := by
  unfold applyPut
  split
  · exact Or.inl rfl
  · split
    · exact Or.inl rfl
    · split
      · exact Or.inr (Or.inl rfl)
      · exact Or.inr (Or.inr ⟨_, _, rfl⟩)

theorem decodeVersions_getLast (l : List (Int × Payload)) :
    ∀ (r : List (Int × Schema)), decodeVersions l = some r →
    ∀ dt p, l.getLast? = some (dt, p) →
    ∀ ll s, decodePayload p = .ok ll → ll.getLast? = some s →
    r.getLast? = some (dt, s) := by
  induction l with
  | nil =>
    intro r _ dt p hl
    simp at hl
  | cons x rest ih =>
    obtain ⟨dt0, p0⟩ := x
    intro r h dt p hl ll s hd hs
    unfold decodeVersions at h
    cases hd0 : decodePayload p0 with
    | error e => simp [hd0] at h
    | ok l0 =>
      simp only [hd0] at h
      cases hl0 : l0.getLast? with
      | none => simp [hl0] at h
      | some s0 =>
        simp only [hl0] at h
        cases hdr : decodeVersions rest with
        | none => simp [hdr] at h
        | some r0 =>
          simp only [hdr, Option.map_some'] at h
          injection h with h
          subst h
          cases rest with
          | nil =>
            have hdtp : dt0 = dt ∧ p0 = p := by simpa using hl
            obtain ⟨hdt1, hp1⟩ := hdtp
            subst hdt1
            subst hp1
            have hr0 : r0 = [] := by simpa [decodeVersions] using hdr
            subst hr0
            rw [hd0] at hd
            injection hd with hd
            subst hd
            rw [hl0] at hs
            injection hs with hs
            subst hs
            rfl
          | cons y rest' =>
            have hl' : (y :: rest').getLast? = some (dt, p) := by simpa using hl
            have hlast := ih r0 hdr dt p hl' ll s hd hs
            cases r0 with
            | nil => simp at hlast
            | cons z zs =>
              rw [List.getLast?_cons_cons]
              exact hlast

theorem loadKey_cases (nodeId : Int) (st : CatalogState) (k : String)
    (vs : List (Int × Payload)) :
    loadKey nodeId st k vs = .ok st ∨ loadKey nodeId st k vs = .err st ∨
    loadKey nodeId st k vs = .panicked ∨
    ∃ lsch decoded, loadKey nodeId st k vs
      = .ok (loadPublish nodeId st k lsch decoded) ∧
      ∃ dt, decoded.getLast? = some (dt, lsch) := by
  by_cases he : vs.isEmpty
  · left
    simp [loadKey, he]
  · cases hlast : (sortByStartDt vs).getLast? with
    | none =>
      left
      simp [loadKey, he, hlast]
    | some pr =>
      obtain ⟨lst, lp⟩ := pr
      cases hdec : decodePayload lp with
      | error e =>
        right; left
        simp [loadKey, he, hlast, hdec]
      | ok ll =>
        cases hll : ll.getLast? with
        | none =>
          left
          simp [loadKey, he, hlast, hdec, hll]
        | some lsch =>
          cases hdv : decodeVersions (sortByStartDt vs) with
          | none =>
            right; right; left
            simp [loadKey, he, hlast, hdec, hll, hdv]
          | some decoded =>
            refine Or.inr (Or.inr (Or.inr ⟨lsch, decoded, ?_, lst, ?_⟩))
            · simp [loadKey, he, hlast, hdec, hll, hdv]
            · exact decodeVersions_getLast (sortByStartDt vs) decoded hdv lst lp
                hlast ll lsch hdec hll

/-! ### C8: lazy record-id generator creation -/

/-- One reconciliation/bulk-load step only grows the generator registry
by insert-if-absent: existing generators survive unchanged, and a key
that had none either still has none or has a fresh generator seeded
from the local node id. -/
def ridPreserved (nodeId : Int) (g g' : List (String × Int)) : Prop :=
  (∀ q v, alGet g q = some v → alGet g' q = some v) ∧
  (∀ q, alGet g q = none → alGet g' q = none ∨ alGet g' q = some nodeId)

theorem ridPreserved_refl (nodeId : Int) (g : List (String × Int)) :
    ridPreserved nodeId g g :=
  ⟨fun _ _ h => h, fun _ h => Or.inl h⟩

theorem ridPreserved_trans {nodeId : Int} {g1 g2 g3 : List (String × Int)}
    (h1 : ridPreserved nodeId g1 g2) (h2 : ridPreserved nodeId g2 g3) :
    ridPreserved nodeId g1 g3 := by
  refine ⟨fun q v h => h2.1 q v (h1.1 q v h), fun q h => ?_⟩
  cases h1.2 q h with
  | inl h' => exact h2.2 q h'
  | inr h' => exact Or.inr (h2.1 q _ h')

theorem ridPreserved_insertIfAbsent (nodeId : Int) (g : List (String × Int))
    (k : String) : ridPreserved nodeId g (ridInsertIfAbsent g k nodeId) := by
  unfold ridInsertIfAbsent
  cases h : alGet g k with
  | some v => exact ridPreserved_refl nodeId g
  | none =>
    constructor
    · intro q v hq
      by_cases hqk : q = k
      · subst hqk
        rw [hq] at h
        exact absurd h (by simp)
      · rw [alGet_set_ne g k q nodeId hqk]
        exact hq
    · intro q hq
      by_cases hqk : q = k
      · subst hqk
        exact Or.inr (alGet_set_self g q nodeId)
      · rw [alGet_set_ne g k q nodeId hqk]
        exact Or.inl hq

theorem ridPreserved_ridStep (nodeId : Int) (g : List (String × Int))
    (k : String) (s : Schema) :
    ridPreserved nodeId g (ridStep nodeId g k s) := by
  unfold ridStep
  split
  · exact ridPreserved_insertIfAbsent nodeId g k
  · exact ridPreserved_refl nodeId g

theorem putApplyCore_rid (nodeId : Int) (st : CatalogState) (item_key : String)
    (vs : List (Int × Payload)) (st' : CatalogState)
    (h : putApplyCore nodeId st item_key vs = some st') :
    ridPreserved nodeId st.stream_record_id_generator
      st'.stream_record_id_generator := by
  rcases putApplyCore_cases nodeId st item_key vs with hc | hc | ⟨lst, lsch, others, hc⟩
  · rw [hc] at h
    injection h with h
    subst h
    exact ridPreserved_refl _ _
  · rw [hc] at h
    exact absurd h (by simp)
  · rw [hc] at h
    injection h with h
    subst h
    exact ridPreserved_ridStep nodeId st.stream_record_id_generator item_key lsch

theorem applyPut_rid (nodeId : Int) (st : CatalogState) (evKey : String)
    (evStartDt : Option Int) (now : Int)
    (store : String → Option (Int × Int) → Except Unit (List (Int × Payload)))
    (st' : CatalogState)
    (h : applyPut nodeId st evKey evStartDt now store = some st') :
    ridPreserved nodeId st.stream_record_id_generator
      st'.stream_record_id_generator := by
  rcases applyPut_cases nodeId st evKey evStartDt now store with
    hc | hc | ⟨item_key, vs, hc⟩
  · rw [hc] at h
    exact absurd h (by simp)
  · rw [hc] at h
    injection h with h
    subst h
    exact ridPreserved_refl _ _
  · rw [hc] at h
    exact putApplyCore_rid nodeId st item_key vs st' h

theorem loadKey_rid (nodeId : Int) (st : CatalogState) (k : String)
    (vs : List (Int × Payload)) (st' : CatalogState)
    (h : loadKey nodeId st k vs = .ok st' ∨ loadKey nodeId st k vs = .err st') :
    ridPreserved nodeId st.stream_record_id_generator
      st'.stream_record_id_generator := by
  rcases loadKey_cases nodeId st k vs with hc | hc | hc | ⟨lsch, decoded, hc, _⟩ <;>
      rw [hc] at h <;>
      rcases h with h | h <;>
      first
        | (injection h with h; subst h; exact ridPreserved_refl _ _)
        | (injection h with h; subst h;
           exact ridPreserved_ridStep nodeId st.stream_record_id_generator k lsch)
        | exact absurd h (by simp)

theorem cacheLoadGroups_rid (nodeId : Int)
    (gs : List (String × List (Int × Payload))) :
    ∀ (st st' : CatalogState),
    (cacheLoadGroups nodeId st gs = .ok st' ∨
      cacheLoadGroups nodeId st gs = .err st') →
    ridPreserved nodeId st.stream_record_id_generator
      st'.stream_record_id_generator := by
  induction gs with
  | nil =>
    intro st st' h
    cases h with
    | inl h =>
      unfold cacheLoadGroups at h
      injection h with h
      subst h
      exact ridPreserved_refl _ _
    | inr h =>
      exact absurd h (by simp [cacheLoadGroups])
  | cons g rest ih =>
    intro st st' h
    obtain ⟨k, vs⟩ := g
    unfold cacheLoadGroups at h
    cases hk : loadKey nodeId st k vs with
    | ok st1 =>
      rw [hk] at h
      exact ridPreserved_trans (loadKey_rid nodeId st k vs st1 (Or.inl hk))
        (ih st1 st' h)
    | err st1 =>
      rw [hk] at h
      cases h with
      | inl h => exact absurd h (by simp)
      | inr h =>
        injection h with h
        subst h
        exact loadKey_rid nodeId st k vs st1 (Or.inr hk)
    | panicked =>
      rw [hk] at h
      cases h with
      | inl h => exact absurd h (by simp)
      | inr h => exact absurd h (by simp)

/-- C8: across every applied Put event and every bulk load (complete or
cut short by the early error return), record-id generators are only
created by insert-if-absent: an existing generator for any key is never
replaced or removed, and a key without one only ever gains a generator
seeded from the local node id.  (Only a full-stream Delete, handled
separately, removes one.) -/
theorem c8_record_id_generator_once :
    (∀ nodeId st evKey evStartDt now store st',
      applyPut nodeId st evKey evStartDt now store = some st' →
      ridPreserved nodeId st.stream_record_id_generator
        st'.stream_record_id_generator) ∧
    (∀ nodeId st items st',
      (cacheLoad nodeId st items = .ok st' ∨
        cacheLoad nodeId st items = .err st') →
      ridPreserved nodeId st.stream_record_id_generator
        st'.stream_record_id_generator) := by
  constructor
  · intro nodeId st evKey evStartDt now store st' h
    exact applyPut_rid nodeId st evKey evStartDt now store st' h
  · intro nodeId st items st' h
    unfold cacheLoad at h
    cases hg : cacheGroups items with
    | none =>
      rw [hg] at h
      cases h with
      | inl h => exact absurd h (by simp)
      | inr h => exact absurd h (by simp)
    | some gs =>
      rw [hg] at h
      exact cacheLoadGroups_rid nodeId gs st st' h

/-- Witness for C8: a Put event for an unseen stream whose snapshot
requests original-document storage creates the generator for that key,
seeded from the local node id, and no other. -/
theorem c8_witness :
    ridPreserved 7 ([] : List (String × Int)) [("acme/logs/app", (7 : Int))] :=
  c8_record_id_generator_once.1 7 emptyState "/schema/acme/logs/app" (some 0)
    1000 (fun _ _ => .ok [((100 : Int), Payload.good [sFlag])])
    ⟨[("acme/logs/app", [((100 : Int), sFlag)])], [("acme/logs/app", sFlag)],
      [("acme/logs/app", ⟨true, false⟩)], [("acme/logs/app", ⟨true, false⟩)],
      [("acme/logs/app", (7 : Int))]⟩ (by decide)

/-! ### C6: Put replay idempotence -/

theorem filter_self_eq_nil (newv : List (Int × Schema)) :
    newv.filter (fun p => newv.all fun q => q.1 ≠ p.1) = [] := by
  rw [List.filter_eq_nil_iff]
  intro p hp
  simp only [List.all_eq_true, decide_eq_true_eq, not_forall]
  exact ⟨p, hp, by simp⟩

theorem filter_stable {α : Type} (l : List α) (f : α → Bool) :
    (l.filter f).filter f = l.filter f := by
  rw [List.filter_eq_self]
  intro a ha
  exact (List.mem_filter.mp ha).2

theorem mergeVersions_get_self (m : List (String × List (Int × Schema)))
    (k : String) (newv : List (Int × Schema)) :
    alGet (mergeVersions m k newv) k =
      some ((((alGet m k).getD []).filter
        fun p => newv.all fun q => q.1 ≠ p.1) ++ newv) := by
  unfold mergeVersions
  cases h : alGet m k with
  | some ex => simp [h, alGet_set_self]
  | none => simp [h, alGet_set_self]

theorem ridInsertIfAbsent_idem (g : List (String × Int)) (k : String)
    (n : Int) :
    ridInsertIfAbsent (ridInsertIfAbsent g k n) k n = ridInsertIfAbsent g k n := by
  cases h : alGet g k with
  | some v => simp [ridInsertIfAbsent, h]
  | none => simp [ridInsertIfAbsent, h, alGet_set_self]

theorem ridStep_idem (n : Int) (g : List (String × Int)) (k : String)
    (s : Schema) : ridStep n (ridStep n g k s) k s = ridStep n g k s := by
  by_cases hc : ((putSettings s).store_original_data
      || (putSettings s).index_original_data) = true
  · simp [ridStep, hc, ridInsertIfAbsent_idem]
  · simp [ridStep, hc]

theorem mergeVersions_idem (m : List (String × List (Int × Schema)))
    (k : String) (newv : List (Int × Schema)) :
    mergeVersions (mergeVersions m k newv) k newv = mergeVersions m k newv := by
  unfold mergeVersions
  cases h : alGet m k with
  | none =>
    simp only [h, alGet_set_self]
    rw [filter_self_eq_nil]
    simp [alSet_set_same]
  | some ex =>
    simp only [h, alGet_set_self]
    rw [List.filter_append, filter_stable, filter_self_eq_nil]
    simp [alSet_set_same]

theorem putPublish_idem (n : Int) (st : CatalogState) (k : String) (lst : Int)
    (lsch : Schema) (others : List (Int × Schema)) :
    putPublish n (putPublish n st k lst lsch others) k lst lsch others
      = putPublish n st k lst lsch others := by
  unfold putPublish
  simp only [mergeVersions_idem, alSet_set_same, ridStep_idem]

theorem prevStartDt_isSome (m : List (String × List (Int × Schema)))
    (k : String) (l : List (Int × Schema)) (h : alGet m k = some l)
    (hne : l ≠ []) : prevStartDt m k ≠ none := by
  simp only [prevStartDt, h]
  intro hc
  rw [Option.map_eq_none'] at hc
  rw [List.get?_eq_none] at hc
  have hlen : 0 < l.length := List.length_pos.mpr hne
  by_cases h2 : l.length ≥ 2
  · simp only [if_pos h2] at hc
    omega
  · simp only [if_neg h2] at hc
    omega

theorem putApplyCore_replay (n : Int) (st st1 : CatalogState) (k : String)
    (vs : List (Int × Payload))
    (h : putApplyCore n st k vs = some st1) :
    putApplyCore n st1 k vs = some st1 := by
  unfold putApplyCore at h ⊢
  cases hlast : vs.getLast? with
  | none =>
    simp only [hlast] at h ⊢
  | some pr =>
    obtain ⟨lst, lp⟩ := pr
    simp only [hlast] at h ⊢
    cases hdec : decodePayload lp with
    | error e =>
      simp only [hdec] at h ⊢
    | ok ll =>
      simp only [hdec] at h ⊢
      cases hll : ll.getLast? with
      | none =>
        simp only [hll] at h ⊢
      | some lsch =>
        simp only [hll] at h ⊢
        cases hdv : decodeVersions vs.dropLast with
        | none =>
          simp only [hdv] at h
          exact absurd h (by simp)
        | some others =>
          simp only [hdv] at h ⊢
          injection h with h
          subst h
          rw [putPublish_idem]

/-- C6: processing the same Put event twice with the backing store
returning the identical version list both times leaves the whole
catalog state (version history, latest schema, settings, mirrored
settings snapshot, and generator registry) exactly as it was after the
first processing. -/
theorem c6_put_replay_idempotent (nodeId : Int) (st st1 : CatalogState)
    (evKey : String) (evStartDt : Option Int) (now now2 : Int)
    (resp : List (Int × Payload))
    (h : applyPut nodeId st evKey evStartDt now (fun _ _ => .ok resp)
      = some st1) :
    applyPut nodeId st1 evKey evStartDt now2 (fun _ _ => .ok resp)
      = some st1 := by
  unfold applyPut at h ⊢
  cases hstrip : stripSchemaKey (putDecodeKey evKey evStartDt).1 with
  | none =>
    simp only [hstrip] at h
    exact absurd h (by simp)
  | some item_key =>
    simp only [hstrip] at h ⊢
    cases hprev : prevStartDt st.stream_schemas item_key with
    | none =>
      simp only [hprev] at h
      exact absurd h (by simp)
    | some prev =>
      simp only [hprev] at h
      cases hprev1 : prevStartDt st1.stream_schemas item_key with
      | none =>
        exfalso
        rcases putApplyCore_cases nodeId st item_key resp with
          hc | hc | ⟨lst, lsch, others, hc⟩
        · rw [hc] at h
          injection h with h
          subst h
          rw [hprev1] at hprev
          exact absurd hprev (by simp)
        · rw [hc] at h
          exact absurd h (by simp)
        · rw [hc] at h
          injection h with h
          subst h
          exact prevStartDt_isSome
            (putPublish nodeId st item_key lst lsch others).stream_schemas
            item_key _
            (mergeVersions_get_self st.stream_schemas item_key
              (others ++ [(lst, lsch)]))
            (by simp) hprev1
      | some prev1 =>
        simp only [hprev1]
        exact putApplyCore_replay nodeId st st1 item_key resp h

/-- Concrete catalog state after one Put of versions 100 and 200 for
`acme/logs/app`, used by the C6 witness. -/
def c6St : CatalogState :=
  ⟨[("acme/logs/app", [((100 : Int), sA), (200, sB)])], [("acme/logs/app", sB)],
    [("acme/logs/app", defaultStreamSettings)],
    [("acme/logs/app", defaultStreamSettings)], []⟩

/-- Witness for C6: replaying the same Put with the same two-version
store response over the state it produced returns that state
unchanged. -/
theorem c6_witness :
    applyPut 7 c6St "/schema/acme/logs/app" (some 0) 2000
      (fun _ _ => .ok [((100 : Int), Payload.good [sA]), (200, Payload.good [sB])])
      = some c6St :=
  c6_put_replay_idempotent 7 emptyState c6St "/schema/acme/logs/app" (some 0)
    1000 2000 [((100 : Int), Payload.good [sA]), (200, Payload.good [sB])]
    (by decide)

/-! ### C9: decode-failure handling -/

/-- Counterexample to C9 as stated: the bulk loader returns early with
an error (rather than skipping the key) when a latest snapshot payload
fails to decode, and the watch engine panics (rather than skipping the
event) when a non-latest fetched payload fails to decode. -/
theorem c9_counterexample :
    cacheLoad 7 emptyState [("/schema/acme/logs/app/100", Payload.bad)]
      = .err emptyState ∧
    applyPut 7 emptyState "/schema/acme/logs/app" (some 0) 1000
      (fun _ _ => .ok [((100 : Int), Payload.bad), (200, Payload.good [sA])])
      = none := by
  exact ⟨by decide, by decide⟩

/-- C9 amended: in the watch handler a Put event whose LATEST fetched
payload fails to decode is skipped with the state unchanged and the
engine running; a decode failure on a non-latest fetched payload panics
the engine; in the bulk loader a decode failure on a key's latest
payload aborts the whole load with an early error, and a malformed item
key (wrong segment count) panics it. -/
theorem c9_decode_failure_amended :
    (∀ nodeId st evKey evStartDt now vs dt item_key prev,
      stripSchemaKey (putDecodeKey evKey evStartDt).1 = some item_key →
      prevStartDt st.stream_schemas item_key = some prev →
      vs.getLast? = some (dt, Payload.bad) →
      applyPut nodeId st evKey evStartDt now (fun _ _ => .ok vs) = some st) ∧
    (∀ nodeId st k vs dt,
      (sortByStartDt vs).getLast? = some (dt, Payload.bad) →
      vs.isEmpty = false →
      loadKey nodeId st k vs = .err st) ∧
    (∀ nodeId st evKey evStartDt now dt rest dt2 l item_key prev,
      stripSchemaKey (putDecodeKey evKey evStartDt).1 = some item_key →
      prevStartDt st.stream_schemas item_key = some prev →
      rest.getLast? = some (dt2, Payload.good l) →
      l ≠ [] →
      applyPut nodeId st evKey evStartDt now
        (fun _ _ => .ok ((dt, Payload.bad) :: rest)) = none) ∧
    (∀ nodeId st p rest,
      cacheLoad nodeId st (("/schema/acme/logs", p) :: rest) = .panicked) := by
  refine ⟨?_, ?_, ?_, ?_⟩
  · intro nodeId st evKey evStartDt now vs dt item_key prev h1 h2 h3
    unfold applyPut
    simp only [h1, h2]
    unfold putApplyCore
    simp [h3, decodePayload]
  · intro nodeId st k vs dt h1 h2
    unfold loadKey
    simp [h2, h1, decodePayload]
  · intro nodeId st evKey evStartDt now dt rest dt2 l item_key prev h1 h2 h3 h4
    unfold applyPut
    simp only [h1, h2]
    unfold putApplyCore
    have hlast : ((dt, Payload.bad) :: rest).getLast? = some (dt2, Payload.good l) := by
      cases rest with
      | nil => simp at h3
      | cons y r =>
        rw [List.getLast?_cons_cons]
        exact h3
    simp only [hlast, decodePayload]
    cases hs : l.getLast? with
    | none =>
      rw [List.getLast?_eq_none_iff] at hs
      exact absurd hs h4
    | some s =>
      simp only [hs]
      have hdl : ((dt, Payload.bad) :: rest).dropLast
          = (dt, Payload.bad) :: rest.dropLast := by
        cases rest with
        | nil => simp at h3
        | cons y r => rfl
      rw [hdl]
      simp [decodeVersions, decodePayload]
  · intro nodeId st p rest
    have hstrip : stripSchemaKey "/schema/acme/logs" = some "acme/logs" := by
      decide
    have hlen : ((splitSlash "acme/logs").take 4).length ≠ 4 := by decide
    unfold cacheLoad cacheGroups
    simp only [hstrip, if_pos hlen]

/-- Witness for C9: a Put whose only (hence latest) fetched payload is
malformed is skipped, leaving the empty state unchanged. -/
theorem c9_witness :
    applyPut 7 emptyState "/schema/acme/logs/app" (some 0) 1000
      (fun _ _ => .ok [((100 : Int), Payload.bad)]) = some emptyState :=
  c9_decode_failure_amended.1 7 emptyState "/schema/acme/logs/app" (some 0)
    1000 [((100 : Int), Payload.bad)] 100 "acme/logs/app" 0 (by decide)
    (by decide) (by decide)

/-! ### C1: latest schema versus version history -/

theorem mergeVersions_get_ne (m : List (String × List (Int × Schema)))
    (k q : String) (newv : List (Int × Schema)) (h : q ≠ k) :
    alGet (mergeVersions m k newv) q = alGet m q := by
  unfold mergeVersions
  cases alGet m k <;> rw [alGet_set_ne _ _ _ _ h]

/-- The invariant the code actually maintains: whenever the version
history for a key is present it is non-empty, and the published latest
schema for that key is the snapshot of the LAST history entry. -/
def latestInv (st : CatalogState) : Prop :=
  ∀ k l, alGet st.stream_schemas k = some l →
    l ≠ [] ∧ alGet st.stream_schemas_latest k = (l.getLast?).map Prod.snd

theorem latestInv_empty : latestInv emptyState := by
  intro k l h
  simp [emptyState, alGet] at h

theorem latestInv_putPublish (n : Int) (st : CatalogState) (k : String)
    (lst : Int) (lsch : Schema) (others : List (Int × Schema))
    (hinv : latestInv st) :
    latestInv (putPublish n st k lst lsch others) := by
  intro q l hq
  simp only [putPublish] at hq ⊢
  by_cases hqk : q = k
  · subst hqk
    rw [mergeVersions_get_self] at hq
    injection hq with hq
    subst hq
    refine ⟨by simp, ?_⟩
    rw [alGet_set_self, List.getLast?_append, List.getLast?_append]
    simp
  · rw [mergeVersions_get_ne _ _ _ _ hqk] at hq
    have hp := hinv q l hq
    exact ⟨hp.1, by rw [alGet_set_ne _ _ _ _ hqk]; exact hp.2⟩

theorem latestInv_loadPublish (n : Int) (st : CatalogState) (k : String)
    (lsch : Schema) (decoded : List (Int × Schema)) (dtx : Int)
    (hinv : latestInv st) (hlast : decoded.getLast? = some (dtx, lsch)) :
    latestInv (loadPublish n st k lsch decoded) := by
  intro q l hq
  simp only [loadPublish] at hq ⊢
  by_cases hqk : q = k
  · subst hqk
    rw [alGet_set_self] at hq
    injection hq with hq
    subst hq
    refine ⟨?_, ?_⟩
    · intro he
      subst he
      simp at hlast
    · rw [alGet_set_self, hlast]
      rfl
  · rw [alGet_set_ne _ _ _ _ hqk] at hq
    have hp := hinv q l hq
    exact ⟨hp.1, by rw [alGet_set_ne _ _ _ _ hqk]; exact hp.2⟩

theorem latestInv_putApplyCore (n : Int) (st : CatalogState) (item : String)
    (vs : List (Int × Payload)) (st' : CatalogState)
    (h : putApplyCore n st item vs = some st') (hinv : latestInv st) :
    latestInv st' := by
  rcases putApplyCore_cases n st item vs with hc | hc | ⟨lst, lsch, others, hc⟩
  · rw [hc] at h
    injection h with h
    subst h
    exact hinv
  · rw [hc] at h
    exact absurd h (by simp)
  · rw [hc] at h
    injection h with h
    subst h
    exact latestInv_putPublish n st item lst lsch others hinv

theorem latestInv_applyPut (nodeId : Int) (st : CatalogState) (evKey : String)
    (evStartDt : Option Int) (now : Int)
    (store : String → Option (Int × Int) → Except Unit (List (Int × Payload)))
    (st' : CatalogState)
    (h : applyPut nodeId st evKey evStartDt now store = some st')
    (hinv : latestInv st) : latestInv st' := by
  rcases applyPut_cases nodeId st evKey evStartDt now store with
    hc | hc | ⟨item_key, vs, hc⟩
  · rw [hc] at h
    exact absurd h (by simp)
  · rw [hc] at h
    injection h with h
    subst h
    exact hinv
  · rw [hc] at h
    exact latestInv_putApplyCore nodeId st item_key vs st' h hinv

theorem latestInv_applyDelete (st : CatalogState) (evKey : String)
    (st' : CatalogState) (h : applyDelete st evKey = some st')
    (hinv : latestInv st) : latestInv st' := by
  unfold applyDelete at h
  cases hstrip : stripSchemaKey evKey with
  | none =>
    simp only [hstrip] at h
    exact absurd h (by simp)
  | some item =>
    simp only [hstrip] at h
    split_ifs at h with h1 h2
    · injection h with h
      subst h
      exact hinv
    · injection h with h
      subst h
      intro q l hq
      dsimp only at hq ⊢
      by_cases hqk : q = item
      · subst hqk
        rw [alGet_remove_self] at hq
        exact absurd hq (by simp)
      · rw [alGet_remove_ne _ _ _ hqk] at hq
        have hp := hinv q l hq
        exact ⟨hp.1, by rw [alGet_remove_ne _ _ _ hqk]; exact hp.2⟩

theorem latestInv_loadKey (nodeId : Int) (st : CatalogState) (k : String)
    (vs : List (Int × Payload)) (st' : CatalogState)
    (h : loadKey nodeId st k vs = .ok st' ∨ loadKey nodeId st k vs = .err st')
    (hinv : latestInv st) : latestInv st' := by
  rcases loadKey_cases nodeId st k vs with
    hc | hc | hc | ⟨lsch, decoded, hc, dtx, hlast⟩ <;>
      rw [hc] at h <;>
      rcases h with h | h <;>
      first
        | (injection h with h; subst h; exact hinv)
        | (injection h with h; subst h;
           exact latestInv_loadPublish nodeId st k lsch decoded dtx hinv hlast)
        | exact absurd h (by simp)

theorem latestInv_cacheLoadGroups (nodeId : Int)
    (gs : List (String × List (Int × Payload))) :
    ∀ (st st' : CatalogState),
    (cacheLoadGroups nodeId st gs = .ok st' ∨
      cacheLoadGroups nodeId st gs = .err st') →
    latestInv st → latestInv st' := by
  induction gs with
  | nil =>
    intro st st' h hinv
    cases h with
    | inl h =>
      unfold cacheLoadGroups at h
      injection h with h
      subst h
      exact hinv
    | inr h =>
      exact absurd h (by simp [cacheLoadGroups])
  | cons g rest ih =>
    intro st st' h hinv
    obtain ⟨k, vs⟩ := g
    unfold cacheLoadGroups at h
    cases hk : loadKey nodeId st k vs with
    | ok st1 =>
      rw [hk] at h
      exact ih st1 st' h (latestInv_loadKey nodeId st k vs st1 (Or.inl hk) hinv)
    | err st1 =>
      rw [hk] at h
      cases h with
      | inl h => exact absurd h (by simp)
      | inr h =>
        injection h with h
        subst h
        exact latestInv_loadKey nodeId st k vs st1 (Or.inr hk) hinv
    | panicked =>
      rw [hk] at h
      cases h with
      | inl h => exact absurd h (by simp)
      | inr h => exact absurd h (by simp)

theorem latestInv_cacheLoad (nodeId : Int) (st : CatalogState)
    (items : List (String × Payload)) (st' : CatalogState)
    (h : cacheLoad nodeId st items = .ok st' ∨
      cacheLoad nodeId st items = .err st')
    (hinv : latestInv st) : latestInv st' := by
  unfold cacheLoad at h
  cases hg : cacheGroups items with
  | none =>
    rw [hg] at h
    cases h with
    | inl h => exact absurd h (by simp)
    | inr h => exact absurd h (by simp)
  | some gs =>
    rw [hg] at h
    exact latestInv_cacheLoadGroups nodeId gs st st' h hinv

theorem latestInv_reach (nodeId : Int) (st : CatalogState)
    (h : Reach nodeId st) : latestInv st := by
  induction h with
  | init => exact latestInv_empty
  | put st0 st' evKey evStartDt now store hr hs ih =>
    exact latestInv_applyPut nodeId st0 evKey evStartDt now store st' hs ih
  | del st0 st' evKey hr hs ih =>
    exact latestInv_applyDelete st0 evKey st' hs ih
  | bulk st0 st' items hr hs ih =>
    exact latestInv_cacheLoad nodeId st0 items st' (Or.inl hs) ih
  | bulkErr st0 st' items hr hs ih =>
    exact latestInv_cacheLoad nodeId st0 items st' (Or.inr hs) ih

theorem maxStartDtEntry_of_asc (l : List (Int × Schema))
    (h : ascStartDt l = true) : maxStartDtEntry l = l.getLast? := by
  induction l with
  | nil => rfl
  | cons a rest ih =>
    cases rest with
    | nil => rfl
    | cons b r =>
      have hab : a.1 ≤ b.1 ∧ ascStartDt (b :: r) = true := by
        have hh := h
        rw [show ascStartDt (a :: b :: r)
            = (decide (a.1 ≤ b.1) && ascStartDt (b :: r)) from rfl] at hh
        simpa [Bool.and_eq_true, decide_eq_true_iff] using hh
      have hstep : maxStartDtEntry (a :: b :: r) = maxStartDtEntry (b :: r) := by
        unfold maxStartDtEntry
        simp only [List.foldl_cons]
        rw [if_pos hab.1]
      rw [hstep, ih hab.2, List.getLast?_cons_cons]

/-- Counterexample to C1 as stated: from the empty state, a first Put
loading versions 100 and 200, followed by a second Put whose key
carries start_dt 150 and whose store answer for the computed range
`[100, now]` contains only version 150 (as after a store-side
single-version delete of 200), yields a reachable state whose history
for `acme/logs/app` is `[(100, sA), (200, sB), (150, sC)]` while the
published latest is `sC` — but the history entry with maximum start_dt
is `(200, sB)`, and `sB ≠ sC`. -/
theorem c1_counterexample :
    ((applyPut 7 emptyState "/schema/acme/logs/app" (some 0) 1000
        (fun _ _ => .ok [((100 : Int), Payload.good [sA]),
          (200, Payload.good [sB])])).bind
      (fun st1 => applyPut 7 st1 "/schema/acme/logs/app/150" none 2000
        (fun _ _ => .ok [((150 : Int), Payload.good [sC])]))).map
      (fun st2 => (alGet st2.stream_schemas "acme/logs/app",
        alGet st2.stream_schemas_latest "acme/logs/app"))
      = some (some [((100 : Int), sA), (200, sB), (150, sC)], some sC) ∧
    (maxStartDtEntry [((100 : Int), sA), (200, sB), (150, sC)]).map Prod.snd
      = some sB ∧
    sB ≠ sC := by
  exact ⟨by decide, by decide, by decide⟩

/-- C1 amended: in every reachable state (bulk loads and applied
Put/Delete sequences), whenever the version history for a key is
present it is non-empty and the published latest schema equals the
snapshot of the LAST history entry — which is the maximum-start_dt
entry whenever the history is in ascending start_dt order (the code
does not guarantee the unconditional maximum-start_dt form against
arbitrary backing-store answers). -/
theorem c1_latest_is_last_entry (nodeId : Int) (st : CatalogState)
    (h : Reach nodeId st) (k : String) (l : List (Int × Schema))
    (hl : alGet st.stream_schemas k = some l) :
    l ≠ [] ∧
    alGet st.stream_schemas_latest k = (l.getLast?).map Prod.snd ∧
    (ascStartDt l = true →
      (maxStartDtEntry l).map Prod.snd = (l.getLast?).map Prod.snd) := by
  obtain ⟨h1, h2⟩ := latestInv_reach nodeId st h k l hl
  exact ⟨h1, h2, fun ha => by rw [maxStartDtEntry_of_asc l ha]⟩

/-- Concrete one-Put catalog state used by the C1 witness. -/
def c1St : CatalogState :=
  ⟨[("acme/logs/app", [((100 : Int), sA), (200, sB)])], [("acme/logs/app", sB)],
    [("acme/logs/app", defaultStreamSettings)],
    [("acme/logs/app", defaultStreamSettings)], []⟩

/-- Witness for C1: after one applied Put with ascending versions 100
and 200, the history is non-empty, the published latest is the last
entry's snapshot, and (the history being ascending) that last entry is
the maximum-start_dt entry. -/
theorem c1_witness :
    [((100 : Int), sA), (200, sB)] ≠ ([] : List (Int × Schema)) ∧
    alGet c1St.stream_schemas_latest "acme/logs/app"
      = ([((100 : Int), sA), (200, sB)].getLast?).map Prod.snd ∧
    (ascStartDt [((100 : Int), sA), (200, sB)] = true →
      (maxStartDtEntry [((100 : Int), sA), (200, sB)]).map Prod.snd
        = ([((100 : Int), sA), (200, sB)].getLast?).map Prod.snd) :=
  c1_latest_is_last_entry 7 c1St
    (Reach.put emptyState c1St "/schema/acme/logs/app" (some 0) 1000
      (fun _ _ => .ok [((100 : Int), Payload.good [sA]),
        (200, Payload.good [sB])])
      Reach.init (by decide))
    "acme/logs/app" [((100 : Int), sA), (200, sB)] (by decide)
